import Mathlib

/-!
Verification development for the `case-studies` repository (Jupyter
notebooks plus an orchestration shell script `run_notebooks.sh`).

The repository's own logic, embedded here:

* the iterative sigma-clipping loop of `eb.ipynb` (`sigma_clip`), which
  keeps a boolean mask over the light-curve points;
* the sigma-clipping loop of the multi-instrument notebook embedded in
  `run_notebooks.sh`, which truncates the per-instrument data arrays;
* the one-shot rms outlier-rejection cell of `tess.ipynb`;
* the staged MAP-optimization chains (`xo.optimize` call sequences) of
  `eb.ipynb`, `ttv.ipynb` and the embedded multi-instrument notebook;
* the command sequence of `run_notebooks.sh` under `set -e`.

Numeric data is modelled over `ℚ`.  The source compares
`|d| < k * sqrt(s2)` where `s2` is a median of squares (hence
nonnegative); this is embedded as the exact rational test
`d ^ 2 < k ^ 2 * s2`, and `abs_lt_mul_sqrt_iff_sq_lt` below proves the
two tests equivalent over `ℝ`.  Model fitting (`build_model` / `xo.optimize`
/ `xo.eval_in_model`) lives in external libraries, so a fit is an oracle
function producing the model prediction (equivalently, the residuals)
for the current data.
-/

/-- Insert a rational into a sorted list (ascending). -/
def insertSorted (x : ℚ) : List ℚ → List ℚ
  | [] => [x]
  | y :: ys => if x ≤ y then x :: y :: ys else y :: insertSorted x ys

/-- Insertion sort, ascending.  `np.median` sorts its input; the sort
algorithm itself is irrelevant, only sortedness matters. -/
def sortQ : List ℚ → List ℚ
  | [] => []
  | x :: xs => insertSorted x (sortQ xs)

/-- `np.median`: middle element of the sorted list for odd length, mean
of the two middle elements for even length.  (Empty input, for which
numpy produces NaN, is sent to 0; no claim depends on it.) -/
def medianQ (l : List ℚ) : ℚ :=
  let s := sortQ l
  if s.length = 0 then 0
  else if s.length % 2 = 1 then s.getD (s.length / 2) 0
  else (s.getD (s.length / 2 - 1) 0 + s.getD (s.length / 2) 0) / 2

/-- The clipping test shared by `eb.ipynb`'s `sigma_clip` and the
embedded multi-instrument notebook:
`sigma = np.sqrt(np.median((resid - np.median(resid)) ** 2))` and the
new mask entry is `np.abs(resid - np.median(resid)) < 7 * sigma`,
embedded as the equivalent exact test `(v - med) ^ 2 < 49 * s2`. -/
def clipTest7 (resid : List ℚ) : List Bool :=
  let med := medianQ resid
  let s2 := medianQ (resid.map (fun v => (v - med) ^ 2))
  resid.map (fun v => decide ((v - med) ^ 2 < 49 * s2))

/-- The outlier-rejection cell of `tess.ipynb`:
`rms = np.sqrt(np.median(resid ** 2))` and `mask = np.abs(resid) < 5 * rms`,
embedded as the equivalent exact test `v ^ 2 < 25 * rms2`.  Note: the
residuals are NOT centred on their median here. -/
def tessClipMask (resid : List ℚ) : List Bool :=
  let rms2 := medianQ (resid.map (fun v => v ^ 2))
  resid.map (fun v => decide (v ^ 2 < 25 * rms2))

/-- The spec's formula for a clipping pass (section 4.2, step (3)-(4)):
robust scale `sqrt(median((r - median r) ^ 2))` and new mask
`|r - median r| < k * scale`, embedded by squaring.  This definition
follows the SPEC's words and exists to be compared with the
source-derived masks above. -/
def specCenteredMask (k : ℚ) (resid : List ℚ) : List Bool :=
  let med := medianQ resid
  let s2 := medianQ (resid.map (fun v => (v - med) ^ 2))
  resid.map (fun v => decide ((v - med) ^ 2 < k ^ 2 * s2))

/-- Numpy boolean-mask assignment `mask[mask] = vals`: the `True`
positions of `mask` receive the entries of `vals` in order; `False`
positions stay `False`.  (Numpy raises on a length mismatch; the
embedding keeps a surplus `True` unchanged, which never arises for a
well-formed fit oracle.) -/
def maskAssign : List Bool → List Bool → List Bool
  | [], _ => []
  | false :: ms, ts => false :: maskAssign ms ts
  | true :: ms, [] => true :: maskAssign ms []
  | true :: ms, t :: ts => t :: maskAssign ms ts

/-- One iteration body of `eb.ipynb`'s `sigma_clip`: build the model on
the current mask, evaluate residuals over the surviving points (the
oracle `fit`), and perform `mask[mask] = np.abs(resid - med) < 7 * sigma`. -/
def ebClipStep (fit : List Bool → List ℚ) (mask : List Bool) : List Bool :=
  maskAssign mask (clipTest7 (fit mask))

/-- The `for i in range(10)` loop of `sigma_clip`.  `fuel` is the number
of remaining iterations, `num` the point count from before the
iteration (`num == mask.sum()` triggers the `break`).  Returns the final
mask together with the number of model-fitting passes performed. -/
def ebClipAux (fit : List Bool → List ℚ) : Nat → List Bool → Nat → List Bool × Nat
  | 0, mask, _ => (mask, 0)
  | fuel + 1, mask, num =>
    let mask' := ebClipStep fit mask
    if num = mask'.count true then (mask', 1)
    else
      let r := ebClipAux fit fuel mask' (mask'.count true)
      (r.1, r.2 + 1)

/-- `sigma_clip` from `eb.ipynb`: `mask = np.ones(len(x), dtype=bool)`,
`num = len(mask)`, then the 10-iteration clipping loop. -/
def ebSigmaClip (fit : List Bool → List ℚ) (n : Nat) : List Bool × Nat :=
  ebClipAux fit 10 (List.replicate n true) n

/-- One instrument's data in the multi-instrument notebook embedded in
`run_notebooks.sh`: `datasets[name] = [x, y, yerr, texp]`.  The scalar
exposure time `texp` is only handed to the external light-curve model
and never modified by the clipping loop, so it is omitted. -/
structure Ds where
  x : List ℚ
  y : List ℚ
  yerr : List ℚ
deriving DecidableEq, Repr

/-- Numpy boolean indexing `a[mask]`: keep the entries at `True`
positions. -/
def filterMask : List ℚ → List Bool → List ℚ
  | v :: vs, b :: bs => if b then v :: filterMask vs bs else filterMask vs bs
  | _, _ => []

/-- The per-instrument masks of one clipping iteration of the embedded
multi-instrument notebook: for each dataset,
`mdl = xo.eval_in_model(gp_preds_with_mean[name], map_soln)` (the oracle
`fit`, indexed by the instrument's position), `resid = y - mdl`, and
`masks[name] = np.abs(resid - np.median(resid)) < 7 * sigma` with
`sigma = np.sqrt(np.median((resid - np.median(resid)) ** 2))`. -/
def embMasks (fit : List Ds → Nat → List ℚ) (ds : List Ds) : List (List Bool) :=
  ds.enum.map (fun p => clipTest7 (List.zipWith (fun a b => a - b) p.2.y (fit ds p.1)))

/-- The clip counts of one iteration:
`clipped[name] = num[name] - masks[name].sum()` with
`num[name] = len(datasets[name][0])`. -/
def embClipped (fit : List Ds → Nat → List ℚ) (ds : List Ds) : List Nat :=
  (ds.zip (embMasks fit ds)).map (fun p => p.1.x.length - p.2.count true)

/-- The `else` branch of the embedded loop: truncate `x`, `y`, `yerr` of
every dataset by that dataset's new mask. -/
def embApply (ds : List Ds) (masks : List (List Bool)) : List Ds :=
  (ds.zip masks).map
    (fun p => ⟨filterMask p.1.x p.2, filterMask p.1.y p.2, filterMask p.1.yerr p.2⟩)

/-- One iteration of the embedded multi-instrument clipping loop after
model fitting: compute the masks and clip counts; `break` (flag `true`,
data untouched) when `all(c < 10 for c in clipped.values())`, otherwise
truncate every dataset by its mask (flag `false`). -/
def embStep (fit : List Ds → Nat → List ℚ) (ds : List Ds) : List Ds × Bool :=
  if (embClipped fit ds).all (fun c => decide (c < 10)) then (ds, true)
  else (embApply ds (embMasks fit ds), false)

/-- The `for i in range(10)` loop of the embedded multi-instrument
notebook.  Each iteration rebuilds and refits the model (one pass of the
oracle `fit`), then clips.  Returns the final datasets and the number of
model-fitting passes performed. -/
def embLoopAux (fit : List Ds → Nat → List ℚ) : Nat → List Ds → List Ds × Nat
  | 0, ds => (ds, 0)
  | fuel + 1, ds =>
    let s := embStep fit ds
    if s.2 then (s.1, 1)
    else
      let r := embLoopAux fit fuel s.1
      (r.1, r.2 + 1)

/-- The embedded multi-instrument sigma-clipping loop, 10 iterations. -/
def embSigmaClip (fit : List Ds → Nat → List ℚ) (ds : List Ds) : List Ds × Nat :=
  embLoopAux fit 10 ds

/-- A staged MAP-optimization chain.  `o s (some vs)` is
`xo.optimize(s, vars)` restricted to the parameter subset named by the
tokens `vs`; `o s none` is the final joint `xo.optimize(s)` over all
parameters.  The chain folds the staged calls over the starting point
and ends with the joint call, exactly the control flow of the
notebooks.  The parameter tensors themselves live in the external
library, so subsets are abstract name lists. -/
def optChain {P : Type} (o : P → Option (List String) → P)
    (stages : List (List String)) (s0 : P) : P :=
  o (stages.foldl (fun s vs => o s (some vs)) s0) none

/-- The staged `xo.optimize` sequence of `build_model` in `eb.ipynb`:
RV parameters, RV noise, LC parameters (twice, widening), LC noise,
ephemeris, then everything jointly. -/
def ebStages : List (List String) :=
  [["mean_rv", "q"],
   ["mean_rv", "sigma_rv1", "sigma_rv2", "S_tot_rv", "ell_rv"],
   ["mean_lc", "R1", "k", "s", "b"],
   ["mean_lc", "R1", "k", "s", "b", "u1", "u2"],
   ["mean_lc", "sigma_lc", "S_tot_lc", "ell_lc"],
   ["t0", "period"]]

/-- `build_model`'s optimization chain in `eb.ipynb`, starting from
`model.test_point`. -/
def ebStagedOptimize {P : Type} (o : P → Option (List String) → P) (tp : P) : P :=
  optChain o ebStages tp

/-- The staged `xo.optimize` sequence of `ttv.ipynb`: transit times,
then radius and impact parameter, then transit times again, then all. -/
def ttvStages : List (List String) :=
  [["transit_times"], ["r", "b"], ["transit_times"]]

/-- `ttv.ipynb`'s optimization chain, starting from `model.test_point`. -/
def ttvStagedOptimize {P : Type} (o : P → Option (List String) → P) (tp : P) : P :=
  optChain o ttvStages tp

/-- The staged sequence of the embedded multi-instrument notebook:
`parameters[name]` for every instrument, then for every instrument
`parameters[name] + [dur, b]` followed by `parameters[name + "_noise"]`,
then everything jointly. -/
def multiStages (names : List String) : List (List String) :=
  names.map (fun n => [n]) ++
    names.flatMap (fun n => [[n, "dur", "b"], [n ++ "_noise"]])

/-- The embedded notebook's optimization chain, starting from
`model.test_point`. -/
def multiStagedOptimize {P : Type} (o : P → Option (List String) → P)
    (names : List String) (tp : P) : P :=
  optChain o (multiStages names) tp

/-- The commands of `run_notebooks.sh`, in script order.  Pure shell
assignments (`CACHEDIR=...`, `export`, `unset`, the `eval` of the conda
hook) are folded into the neighbouring conda-setup step; every command
that can fail and so trip `set -e` is its own constructor. -/
inductive Cmd where
  | condaHook
  | condaActivateBase
  | gitCheckoutMaster
  | gitPullMaster
  | rmExoplanet
  | cloneExoplanet
  | rmEnv
  | condaEnvUpdate
  | condaActivateEnv
  | pipRequirements
  | pipInstallExoplanet
  | rmCache
  | branchDelete
  | checkoutAutoBranch
  | cdDocs
  | envExport
  | runNotebooks
  | cpSetup
  | gitAddSetup
  | gitAddNotebooks
  | gitCommit
  | gitPush
  | cdUp
  | checkoutMasterAgain
  | condaDeactivate
  | sendMail
deriving DecidableEq, Repr

/-- `git branch -D auto_notebooks || true` is the only command whose
failure is swallowed; every other command runs under bare `set -e`. -/
def orTrue : Cmd → Bool
  | Cmd.branchDelete => true
  | _ => false

/-- The script body in order. -/
def scriptCmds : List Cmd :=
  [Cmd.condaHook, Cmd.condaActivateBase, Cmd.gitCheckoutMaster,
   Cmd.gitPullMaster, Cmd.rmExoplanet, Cmd.cloneExoplanet, Cmd.rmEnv,
   Cmd.condaEnvUpdate, Cmd.condaActivateEnv, Cmd.pipRequirements,
   Cmd.pipInstallExoplanet, Cmd.rmCache, Cmd.branchDelete,
   Cmd.checkoutAutoBranch, Cmd.cdDocs, Cmd.envExport, Cmd.runNotebooks,
   Cmd.cpSetup, Cmd.gitAddSetup, Cmd.gitAddNotebooks, Cmd.gitCommit,
   Cmd.gitPush, Cmd.cdUp, Cmd.checkoutMasterAgain, Cmd.condaDeactivate,
   Cmd.sendMail]

/-- `set -e` semantics over an outcome assignment `res` (`true` =
exit status 0): commands run in order; after the first failing command
whose failure is not swallowed by `|| true`, the shell exits and nothing
later runs.  Returns the list of commands that were executed. -/
def runScript (res : Cmd → Bool) : List Cmd → List Cmd
  | [] => []
  | c :: rest =>
    if res c || orTrue c then c :: runScript res rest else [c]

/-- Pointwise narrowing of masks of equal length: wherever the first
mask keeps a point, so does the second ("no point is re-admitted"). -/
def maskLe (a b : List Bool) : Prop :=
  List.Forall₂ (fun p q => p = true → q = true) a b

/-- One dataset refines another when each of its arrays is a sublist
(order-preserving selection) of the other's. -/
def dsSub (a b : Ds) : Prop :=
  a.x.Sublist b.x ∧ a.y.Sublist b.y ∧ a.yerr.Sublist b.yerr

/-- A fit oracle whose residuals are all equal: the robust scale is then
0 and the strict 7-sigma test clips every point at once.  It satisfies
the loop's interface (one residual per surviving point). -/
def degenerateFit (m : List Bool) : List ℚ :=
  List.replicate (m.count true) 1

/-- A fit oracle whose residuals are `1, 2, ..., k-1` plus one extreme
outlier `1000`: every pass clips exactly the outlier, so the point count
changes on every iteration and the loop exhausts its 10-iteration cap
while still clipping. -/
def outlierFit (m : List Bool) : List ℚ :=
  (List.range (m.count true - 1)).map (fun j => (j : ℚ) + 1) ++ [1000]

/-- A benign fit oracle: residuals `[1, 2, 3]` pass the 7-sigma test, so
nothing is clipped on the first pass. -/
def benignFit (_ : List Bool) : List ℚ :=
  [1, 2, 3]

/-- A 5-point instrument whose residuals (against the zero prediction of
`zeroPredFit`) are `[0, 0, 0, 0, 100]`: the robust scale is 0, all five
points are flagged, yet `clipped = 5 < 10` triggers the break. -/
def spikeDs : Ds :=
  ⟨[1, 2, 3, 4, 5], [0, 0, 0, 0, 100], [1, 1, 1, 1, 1]⟩

/-- Oracle predicting 0 for the five points of `spikeDs`. -/
def zeroPredFit : List Ds → Nat → List ℚ :=
  fun _ _ => [0, 0, 0, 0, 0]

/-- A 3-point instrument with residuals `[1, 2, 3]` against
`calmPredFit`: nothing is clipped. -/
def calmDs : Ds :=
  ⟨[1, 2, 3], [1, 2, 3], [1, 1, 1]⟩

/-- Oracle predicting 0 for the three points of `calmDs`. -/
def calmPredFit : List Ds → Nat → List ℚ :=
  fun _ _ => [0, 0, 0]

/-- The script commands up to and including the notebook run. -/
def cmdsThroughRun : List Cmd :=
  [Cmd.condaHook, Cmd.condaActivateBase, Cmd.gitCheckoutMaster,
   Cmd.gitPullMaster, Cmd.rmExoplanet, Cmd.cloneExoplanet, Cmd.rmEnv,
   Cmd.condaEnvUpdate, Cmd.condaActivateEnv, Cmd.pipRequirements,
   Cmd.pipInstallExoplanet, Cmd.rmCache, Cmd.branchDelete,
   Cmd.checkoutAutoBranch, Cmd.cdDocs, Cmd.envExport, Cmd.runNotebooks]

/-- The script commands after the notebook run. -/
def cmdsAfterRun : List Cmd :=
  [Cmd.cpSetup, Cmd.gitAddSetup, Cmd.gitAddNotebooks, Cmd.gitCommit,
   Cmd.gitPush, Cmd.cdUp, Cmd.checkoutMasterAgain, Cmd.condaDeactivate,
   Cmd.sendMail]

/-- The script commands up to and including the commit. -/
def cmdsThroughCommit : List Cmd :=
  cmdsThroughRun ++ [Cmd.cpSetup, Cmd.gitAddSetup, Cmd.gitAddNotebooks,
   Cmd.gitCommit]

/-- The script commands after the commit. -/
def cmdsAfterCommit : List Cmd :=
  [Cmd.gitPush, Cmd.cdUp, Cmd.checkoutMasterAgain, Cmd.condaDeactivate,
   Cmd.sendMail]

/-- An outcome assignment under which only the notebook run fails. -/
def resRunFails : Cmd → Bool :=
  fun c => decide (c ≠ Cmd.runNotebooks)

/-- An outcome assignment under which only the commit fails (e.g. the
notebook run changed no tracked file, so `git commit` exits 1). -/
def resCommitFails : Cmd → Bool :=
  fun c => decide (c ≠ Cmd.gitCommit)

/-! ### Helper lemmas -/

/-- The embedding replaces the source's `|d| < k * sqrt s2` (with
`s2 ≥ 0`, being a median of squares) by the exact rational test
`d ^ 2 < k ^ 2 * s2`; over `ℝ` the two are equivalent. -/
theorem abs_lt_mul_sqrt_iff_sq_lt (d s2 k : ℝ) (hk : 0 ≤ k) :
    |d| < k * Real.sqrt s2 ↔ d ^ 2 < k ^ 2 * s2 := by
  have h1 : k * Real.sqrt s2 = Real.sqrt (k ^ 2 * s2) := by
    rw [Real.sqrt_mul (sq_nonneg k), Real.sqrt_sq hk]
  rw [h1, Real.lt_sqrt (abs_nonneg d), sq_abs]

theorem maskAssign_length (m ts : List Bool) :
    (maskAssign m ts).length = m.length := by
  induction m generalizing ts with
  | nil => simp [maskAssign]
  | cons b ms ih =>
    cases b with
    | false => simpa [maskAssign] using ih ts
    | true =>
      cases ts with
      | nil => simpa [maskAssign] using ih []
      | cons t ts => simpa [maskAssign] using ih ts

theorem maskAssign_le (m ts : List Bool) : maskLe (maskAssign m ts) m := by
  induction m generalizing ts with
  | nil => exact List.Forall₂.nil
  | cons b ms ih =>
    cases b with
    | false => exact List.Forall₂.cons (fun h => by cases h) (ih ts)
    | true =>
      cases ts with
      | nil => exact List.Forall₂.cons (fun _ => rfl) (ih [])
      | cons t ts => exact List.Forall₂.cons (fun _ => rfl) (ih ts)

theorem maskLe_refl (m : List Bool) : maskLe m m := by
  induction m with
  | nil => exact List.Forall₂.nil
  | cons b ms ih => exact List.Forall₂.cons (fun h => h) ih

theorem maskLe_trans {a b c : List Bool} (h1 : maskLe a b) (h2 : maskLe b c) :
    maskLe a c := by
  induction h1 generalizing c with
  | nil => cases h2; exact List.Forall₂.nil
  | cons hpq _ ih =>
    cases h2 with
    | cons hqr h2' => exact List.Forall₂.cons (fun h => hqr (hpq h)) (ih h2')

theorem maskLe_count {a b : List Bool} (h : maskLe a b) :
    a.count true ≤ b.count true := by
  induction h with
  | nil => exact Nat.le_refl 0
  | @cons p q _ _ hpq _ ih =>
    cases p with
    | true => simpa [hpq rfl] using Nat.succ_le_succ ih
    | false =>
      cases q with
      | true => simp [List.count_cons]; omega
      | false => simpa using ih

theorem maskLe_count_eq {a b : List Bool} (h : maskLe a b)
    (hc : a.count true = b.count true) : a = b := by
  induction h with
  | nil => rfl
  | @cons p q a' b' hpq h' ih =>
    cases p with
    | true =>
      have hq : q = true := hpq rfl
      subst hq
      simp only [List.count_cons, if_pos rfl] at hc
      rw [ih (by omega)]
    | false =>
      cases q with
      | false =>
        simp only [List.count_cons] at hc
        rw [ih (by omega)]
      | true =>
        exfalso
        have := maskLe_count h'
        simp [List.count_cons] at hc
        omega

theorem ebClipAux_passes_le (fit : List Bool → List ℚ) (fuel : Nat)
    (mask : List Bool) (num : Nat) :
    (ebClipAux fit fuel mask num).2 ≤ fuel := by
  induction fuel generalizing mask num with
  | zero => simp [ebClipAux]
  | succ fuel ih =>
    simp only [ebClipAux]
    split
    · simp
    · simpa using Nat.succ_le_succ (ih _ _)

theorem ebClipStep_le (fit : List Bool → List ℚ) (mask : List Bool) :
    maskLe (ebClipStep fit mask) mask :=
  maskAssign_le mask (clipTest7 (fit mask))

theorem ebClipAux_le (fit : List Bool → List ℚ) (fuel : Nat)
    (mask : List Bool) (num : Nat) :
    maskLe (ebClipAux fit fuel mask num).1 mask := by
  induction fuel generalizing mask num with
  | zero => exact maskLe_refl mask
  | succ fuel ih =>
    simp only [ebClipAux]
    split
    · exact ebClipStep_le fit mask
    · exact maskLe_trans (ih _ _) (ebClipStep_le fit mask)

theorem ebClipAux_fixed (fit : List Bool → List ℚ) (fuel : Nat)
    (mask : List Bool) (num : Nat) (hnum : num = mask.count true)
    (hlt : (ebClipAux fit fuel mask num).2 < fuel) :
    ebClipStep fit (ebClipAux fit fuel mask num).1 =
      (ebClipAux fit fuel mask num).1 := by
  induction fuel generalizing mask num with
  | zero => exact absurd hlt (by simp)
  | succ fuel ih =>
    simp only [ebClipAux] at hlt ⊢
    split
    · rename_i hbreak
      have hmask : ebClipStep fit mask = mask :=
        maskLe_count_eq (ebClipStep_le fit mask) (by rw [← hbreak, hnum])
      simp [hmask]
    · rename_i hbreak
      rw [if_neg hbreak] at hlt
      simp only [Nat.add_lt_add_iff_right] at hlt
      exact ih _ _ rfl hlt

theorem filterMask_sublist (vs : List ℚ) (bs : List Bool) :
    (filterMask vs bs).Sublist vs := by
  induction vs generalizing bs with
  | nil => simp [filterMask]
  | cons v vs ih =>
    cases bs with
    | nil => simp [filterMask]
    | cons b bs =>
      cases b with
      | true => simpa [filterMask] using List.Sublist.cons₂ v (ih bs)
      | false => simpa [filterMask] using List.Sublist.cons v (ih bs)

theorem dsSub_refl (d : Ds) : dsSub d d :=
  ⟨List.Sublist.refl _, List.Sublist.refl _, List.Sublist.refl _⟩

theorem dsSub_trans {a b c : Ds} (h1 : dsSub a b) (h2 : dsSub b c) : dsSub a c :=
  ⟨h1.1.trans h2.1, h1.2.1.trans h2.2.1, h1.2.2.trans h2.2.2⟩

theorem forall2_dsSub_refl (ds : List Ds) : List.Forall₂ dsSub ds ds := by
  induction ds with
  | nil => exact List.Forall₂.nil
  | cons d ds ih => exact List.Forall₂.cons (dsSub_refl d) ih

theorem forall2_dsSub_trans {a b c : List Ds} (h1 : List.Forall₂ dsSub a b)
    (h2 : List.Forall₂ dsSub b c) : List.Forall₂ dsSub a c := by
  induction h1 generalizing c with
  | nil => cases h2; exact List.Forall₂.nil
  | cons hab _ ih =>
    cases h2 with
    | cons hbc h2' => exact List.Forall₂.cons (dsSub_trans hab hbc) (ih h2')

theorem embApply_sub (ds : List Ds) (masks : List (List Bool)) :
    List.Forall₂ dsSub (embApply ds masks) ds ∨
      (embApply ds masks).length < ds.length := by
  induction ds generalizing masks with
  | nil => left; exact List.Forall₂.nil
  | cons d ds ih =>
    cases masks with
    | nil => right; simp [embApply]
    | cons m masks =>
      rcases ih masks with h | h
      · left
        exact List.Forall₂.cons
          ⟨filterMask_sublist d.x m, filterMask_sublist d.y m,
            filterMask_sublist d.yerr m⟩ h
      · right
        simpa [embApply, List.length_map] using Nat.succ_lt_succ (by
          simpa [embApply, List.length_map] using h)

theorem embMasks_length (fit : List Ds → Nat → List ℚ) (ds : List Ds) :
    (embMasks fit ds).length = ds.length := by
  simp [embMasks]

theorem embApply_length (ds : List Ds) (masks : List (List Bool)) :
    (embApply ds masks).length = min ds.length masks.length := by
  simp [embApply]

theorem embStep_sub (fit : List Ds → Nat → List ℚ) (ds : List Ds) :
    List.Forall₂ dsSub (embStep fit ds).1 ds := by
  unfold embStep
  split
  · exact forall2_dsSub_refl ds
  · rcases embApply_sub ds (embMasks fit ds) with h | h
    · exact h
    · rw [embApply_length, embMasks_length] at h
      omega

theorem embLoopAux_passes_le (fit : List Ds → Nat → List ℚ) (fuel : Nat)
    (ds : List Ds) : (embLoopAux fit fuel ds).2 ≤ fuel := by
  induction fuel generalizing ds with
  | zero => simp [embLoopAux]
  | succ fuel ih =>
    simp only [embLoopAux]
    split
    · simp
    · simpa using Nat.succ_le_succ (ih _)

theorem embLoopAux_sub (fit : List Ds → Nat → List ℚ) (fuel : Nat)
    (ds : List Ds) : List.Forall₂ dsSub (embLoopAux fit fuel ds).1 ds := by
  induction fuel generalizing ds with
  | zero => exact forall2_dsSub_refl ds
  | succ fuel ih =>
    simp only [embLoopAux]
    split
    · rename_i hbr
      exact embStep_sub fit ds
    · exact forall2_dsSub_trans (ih _) (embStep_sub fit ds)

theorem embStep_break_eq (fit : List Ds → Nat → List ℚ) (ds : List Ds)
    (h : (embStep fit ds).2 = true) : embStep fit ds = (ds, true) := by
  unfold embStep at h ⊢
  split at h
  · rename_i hc
    rw [if_pos hc]
  · simp at h

theorem embLoopAux_break (fit : List Ds → Nat → List ℚ) (fuel : Nat)
    (ds : List Ds) (h : (embStep fit ds).2 = true) :
    embLoopAux fit (fuel + 1) ds = (ds, 1) := by
  simp only [embLoopAux, h, if_pos]
  rw [embStep_break_eq fit ds h]

theorem embLoopAux_fixed (fit : List Ds → Nat → List ℚ) (fuel : Nat)
    (ds : List Ds) (hlt : (embLoopAux fit fuel ds).2 < fuel) :
    (embStep fit (embLoopAux fit fuel ds).1).2 = true := by
  induction fuel generalizing ds with
  | zero => exact absurd hlt (by simp)
  | succ fuel ih =>
    simp only [embLoopAux]
    split
    · rename_i hbr
      have := embStep_break_eq fit ds hbr
      simp only [this]
    · rename_i hbr
      simp only [embLoopAux] at hlt
      rw [if_neg (by simpa using hbr)] at hlt
      exact ih _ (by omega)

theorem foldl_opt_le {P : Type} (logp : P → ℚ) (o : P → Option (List String) → P)
    (H : ∀ s v, logp s ≤ logp (o s v)) (stages : List (List String)) (s0 : P) :
    logp s0 ≤ logp (stages.foldl (fun s vs => o s (some vs)) s0) := by
  induction stages generalizing s0 with
  | nil => simp
  | cons vs stages ih => exact le_trans (H s0 (some vs)) (ih _)

theorem optChain_le {P : Type} (logp : P → ℚ) (o : P → Option (List String) → P)
    (H : ∀ s v, logp s ≤ logp (o s v)) (stages : List (List String)) (s0 : P) :
    logp s0 ≤ logp (optChain o stages s0) :=
  le_trans (foldl_opt_le logp o H stages s0) (H _ none)

theorem mem_runScript_split (res : Cmd → Bool) (l1 l2 : List Cmd) (d : Cmd)
    (hd : d ∉ l1) (h : d ∈ runScript res (l1 ++ l2)) :
    (∀ c ∈ l1, (res c || orTrue c) = true) ∧ d ∈ runScript res l2 := by
  induction l1 with
  | nil => exact ⟨by simp, by simpa using h⟩
  | cons a l1 ih =>
    simp only [List.cons_append, runScript] at h
    cases hres : (res a || orTrue a) with
    | false =>
      rw [hres] at h
      simp only [Bool.false_eq_true, if_false, List.mem_singleton] at h
      exact absurd h (by simpa using List.ne_of_not_mem_cons hd)
    | true =>
      rw [hres] at h
      simp only [if_true] at h
      have hd' : d ∉ l1 := fun hmem => hd (List.mem_cons_of_mem a hmem)
      have hda : d ≠ a := List.ne_of_not_mem_cons hd
      have h2 : d ∈ runScript res (l1 ++ l2) := by
        rcases List.mem_cons.mp h with h | h
        · exact absurd h hda
        · exact h
      obtain ⟨hall, hmem⟩ := ih hd' h2
      refine ⟨?_, hmem⟩
      intro c hc
      rcases List.mem_cons.mp hc with rfl | hc
      · exact hres
      · exact hall c hc

theorem maskAssign_all_true (m ts : List Bool) (h : ∀ b ∈ ts, b = true) :
    maskAssign m ts = m := by
  induction m generalizing ts with
  | nil => rfl
  | cons b ms ih =>
    cases b with
    | false => simp [maskAssign, ih ts h]
    | true =>
      cases ts with
      | nil => simp [maskAssign, ih [] (by simp)]
      | cons t ts' =>
        have ht : t = true := h t (List.mem_cons_self t ts')
        simp [maskAssign, ht, ih ts' (fun b hb => h b (List.mem_cons_of_mem t hb))]

/-! ### Claim theorems -/

/-- C1: every sigma-clipping loop (the `sigma_clip` function of
`eb.ipynb` and the clipping loop of the embedded multi-instrument
notebook) terminates after at most 10 iterations: at most 10
fit-compute-residuals-mask passes are performed before returning, for
every fit oracle and every input. -/
theorem sigma_clip_terminates_within_cap :
    (∀ (fit : List Bool → List ℚ) (n : Nat), (ebSigmaClip fit n).2 ≤ 10) ∧
    (∀ (fit : List Ds → Nat → List ℚ) (ds : List Ds),
      (embSigmaClip fit ds).2 ≤ 10) :=
  ⟨fun fit n => ebClipAux_passes_le fit 10 _ n,
   fun fit ds => embLoopAux_passes_le fit 10 ds⟩

/-- C2: in both loop variants, the mask (resp. the surviving data) after
any iteration is a subset of the mask (resp. data) before it, and hence
the loop's final mask is a subset of its initial mask: a point removed
in an earlier iteration is never re-admitted.  For `eb.ipynb` the
`mask[mask] = ...` assignment only narrows the mask; for the embedded
variant each truncated array is a sublist of the previous one. -/
theorem sigma_clip_never_readmits :
    (∀ (fit : List Bool → List ℚ) (mask : List Bool),
        maskLe (ebClipStep fit mask) mask) ∧
    (∀ (fit : List Bool → List ℚ) (fuel : Nat) (mask : List Bool) (num : Nat),
        maskLe (ebClipAux fit fuel mask num).1 mask) ∧
    (∀ (fit : List Ds → Nat → List ℚ) (ds : List Ds),
        List.Forall₂ dsSub (embStep fit ds).1 ds) ∧
    (∀ (fit : List Ds → Nat → List ℚ) (fuel : Nat) (ds : List Ds),
        List.Forall₂ dsSub (embLoopAux fit fuel ds).1 ds) :=
  ⟨ebClipStep_le, ebClipAux_le, embStep_sub,
   fun fit fuel ds => embLoopAux_sub fit fuel ds⟩

/-- C3 counterexample: the claim says EVERY sigma-clipping variant
centres the residuals on their median before the scale computation and
the threshold test.  The `tess.ipynb` outlier-rejection cell does not:
on residuals `[10, 10, 10]` it keeps every point
(`rms² = 100`, `10² < 25·100`), whereas the centred rule of the spec
with `k = 5` clips every point (scale 0).  So the two rules differ and
the tess cell is not the centred rule. -/
theorem tess_clip_not_centered_cex :
    tessClipMask [10, 10, 10] ≠ specCenteredMask 5 [10, 10, 10] :=
  of_decide_eq_true (by with_unfolding_all rfl)

/-- C3 amended: the two iterative loop variants (`eb.ipynb` and the
embedded multi-instrument notebook, both of which use `clipTest7`)
centre the residuals on their median for both the robust scale and the
strict threshold test, with multiplier k = 7, exactly the spec's
formula; the `tess.ipynb` outlier cell instead uses the uncentred rms
rule with k = 5. -/
theorem loop_clip_variants_center_on_median :
    ∀ resid : List ℚ, clipTest7 resid = specCenteredMask 7 resid := by
  intro resid
  simp only [clipTest7, specCenteredMask, show (7 : ℚ) ^ 2 = 49 by norm_num]

/-- C4: for every starting parameter vector, each staged MAP
optimization chain (the `xo.optimize` sequences of `eb.ipynb`,
`ttv.ipynb`, and the embedded multi-instrument notebook, each ending in
a final joint `xo.optimize` and starting from `model.test_point`)
returns a point whose log-posterior is at least that of the start,
under the hypothesis that each individual optimizer call does not
decrease the log-posterior of its own starting point. -/
theorem staged_map_nondecreasing {P : Type} (logp : P → ℚ)
    (o : P → Option (List String) → P)
    (H : ∀ s v, logp s ≤ logp (o s v)) (tp : P) (names : List String) :
    logp tp ≤ logp (ebStagedOptimize o tp) ∧
    logp tp ≤ logp (ttvStagedOptimize o tp) ∧
    logp tp ≤ logp (multiStagedOptimize o names tp) :=
  ⟨optChain_le logp o H ebStages tp, optChain_le logp o H ttvStages tp,
   optChain_le logp o H (multiStages names) tp⟩

/-- Witness for C4 at a concrete optimizer (`fun s _ => s + 1` over `ℚ`
with `logp = id`), start `0` and two instrument names. -/
theorem staged_map_nondecreasing_witness :
    id (0 : ℚ) ≤ id (ebStagedOptimize (fun s (_ : Option (List String)) => s + 1) 0) ∧
    id (0 : ℚ) ≤ id (ttvStagedOptimize (fun s (_ : Option (List String)) => s + 1) 0) ∧
    id (0 : ℚ) ≤ id (multiStagedOptimize (fun s (_ : Option (List String)) => s + 1)
      ["TESS", "LCO"] 0) :=
  staged_map_nondecreasing id (fun s _ => s + 1)
    (fun s _ => le_of_lt (lt_add_one s)) 0 ["TESS", "LCO"]

/-- C5: if on the first iteration the computed mask keeps every
currently unmasked point (for `eb.ipynb`: every entry of the clipping
test is `true`; for the embedded variant: every clip count is 0), the
loop performs exactly one model-fitting pass and returns immediately
with the data unchanged (the all-ones initial mask for `eb.ipynb`, the
input datasets for the embedded variant). -/
theorem sigma_clip_first_pass_clean_returns :
    (∀ (fit : List Bool → List ℚ) (n : Nat),
        (∀ b ∈ clipTest7 (fit (List.replicate n true)), b = true) →
        ebSigmaClip fit n = (List.replicate n true, 1)) ∧
    (∀ (fit : List Ds → Nat → List ℚ) (ds : List Ds),
        (∀ c ∈ embClipped fit ds, c = 0) →
        embSigmaClip fit ds = (ds, 1)) := by
  constructor
  · intro fit n h
    have hstep : ebClipStep fit (List.replicate n true) = List.replicate n true :=
      maskAssign_all_true _ _ h
    show ebClipAux fit (9 + 1) (List.replicate n true) n = _
    simp [ebClipAux, hstep, List.count_replicate]
  · intro fit ds h
    have hcond : (embClipped fit ds).all (fun c => decide (c < 10)) = true := by
      rw [List.all_eq_true]
      intro c hc
      rw [h c hc]
      decide
    have hbr : (embStep fit ds).2 = true := by simp [embStep, hcond]
    exact embLoopAux_break fit 9 ds hbr

/-- Witness for C5: the benign oracle (residuals `[1, 2, 3]`, nothing
clipped) for `eb.ipynb`, and the calm dataset (zero clip count) for the
embedded variant. -/
theorem sigma_clip_first_pass_clean_returns_witness :
    (∀ b ∈ clipTest7 (benignFit (List.replicate 3 true)), b = true) ∧
    ebSigmaClip benignFit 3 = (List.replicate 3 true, 1) ∧
    (∀ c ∈ embClipped calmPredFit [calmDs], c = 0) ∧
    embSigmaClip calmPredFit [calmDs] = ([calmDs], 1) := by
  have h1 : ∀ b ∈ clipTest7 (benignFit (List.replicate 3 true)), b = true := by
    have e : clipTest7 (benignFit (List.replicate 3 true)) = [true, true, true] := by
      with_unfolding_all rfl
    rw [e]
    intro b hb
    simp only [List.mem_cons, List.not_mem_nil, or_false] at hb
    rcases hb with h | h | h <;> exact h
  have h2 : ∀ c ∈ embClipped calmPredFit [calmDs], c = 0 := by
    have e : embClipped calmPredFit [calmDs] = [0] := by with_unfolding_all rfl
    rw [e]
    intro c hc
    simpa using hc
  exact ⟨h1, sigma_clip_first_pass_clean_returns.1 benignFit 3 h1, h2,
    sigma_clip_first_pass_clean_returns.2 calmPredFit [calmDs] h2⟩

/-- C6 counterexample: idempotence fails.  With the `outlierFit` oracle
(one extreme outlier per pass) on 15 points, the loop exhausts its
10-iteration cap while still clipping; one further clipping pass on the
mask it returned clips an additional point, so the returned mask is not
a fixed point of one clipping pass. -/
theorem sigma_clip_not_idempotent_cex :
    (ebClipStep outlierFit (ebSigmaClip outlierFit 15).1).count true <
      ((ebSigmaClip outlierFit 15).1).count true :=
  of_decide_eq_true (by with_unfolding_all rfl)

/-- C6 amended: the fixed-point property holds exactly when the loop
exits through its convergence break rather than by exhausting the
10-iteration cap, i.e. when fewer than 10 fitting passes were
performed.  Then for `eb.ipynb` one further clipping pass leaves the
returned mask unchanged, and rerunning the embedded loop on the data it
returned breaks immediately after one pass with the data unchanged.  A
run that uses all 10 iterations (as in the counterexample) may still
clip further points. -/
theorem sigma_clip_break_gives_fixed_point :
    (∀ (fit : List Bool → List ℚ) (n : Nat), (ebSigmaClip fit n).2 < 10 →
        ebClipStep fit (ebSigmaClip fit n).1 = (ebSigmaClip fit n).1) ∧
    (∀ (fit : List Ds → Nat → List ℚ) (ds : List Ds),
        (embSigmaClip fit ds).2 < 10 →
        embSigmaClip fit (embSigmaClip fit ds).1 =
          ((embSigmaClip fit ds).1, 1)) := by
  constructor
  · intro fit n h
    exact ebClipAux_fixed fit 10 (List.replicate n true) n
      (List.count_replicate_self true n).symm h
  · intro fit ds h
    have hbr := embLoopAux_fixed fit 10 ds h
    exact embLoopAux_break fit 9 _ hbr

/-- Witness for C6 amended: the benign oracle breaks after one pass
(1 < 10) and its mask is a fixed point; likewise the calm dataset for
the embedded loop. -/
theorem sigma_clip_break_gives_fixed_point_witness :
    (ebSigmaClip benignFit 3).2 < 10 ∧
    ebClipStep benignFit (ebSigmaClip benignFit 3).1 = (ebSigmaClip benignFit 3).1 ∧
    (embSigmaClip calmPredFit [calmDs]).2 < 10 ∧
    embSigmaClip calmPredFit (embSigmaClip calmPredFit [calmDs]).1 =
      ((embSigmaClip calmPredFit [calmDs]).1, 1) := by
  have h1 : (ebSigmaClip benignFit 3).2 < 10 :=
    of_decide_eq_true (by with_unfolding_all rfl)
  have h2 : (embSigmaClip calmPredFit [calmDs]).2 < 10 :=
    of_decide_eq_true (by with_unfolding_all rfl)
  exact ⟨h1, sigma_clip_break_gives_fixed_point.1 benignFit 3 h1, h2,
    sigma_clip_break_gives_fixed_point.2 calmPredFit [calmDs] h2⟩

/-- C7: no operation of the sigma-clipping loop enforces a lower bound
on the number of surviving points.  There is a fit oracle satisfying the
loop's interface (one residual per surviving point) for which the loop
returns normally with every one of the 5 points clipped: equal residuals
give robust scale 0, and the strict `< 7·sigma` test then removes every
point at once. -/
theorem sigma_clip_no_minimum_sample :
    ∃ fit : List Bool → List ℚ,
      (∀ m : List Bool, (fit m).length = m.count true) ∧
      ((ebSigmaClip fit 5).1).length = 5 ∧
      ((ebSigmaClip fit 5).1).count true = 0 := by
  refine ⟨degenerateFit, fun m => by simp [degenerateFit], ?_, ?_⟩
  · with_unfolding_all rfl
  · with_unfolding_all rfl

/-- C8: in `run_notebooks.sh`, if `python run_notebooks.py` exits with a
nonzero status then, under `set -e`, none of the later steps run: no
`git add`, no commit, no force-push of the rendered notebooks, and no
completion email.  (The statement hypothesises only the failure of the
notebook run; if an even earlier command also fails, the later steps
are still never reached.) -/
theorem failed_notebook_run_blocks_publishing :
    ∀ res : Cmd → Bool, res Cmd.runNotebooks = false →
      Cmd.gitAddSetup ∉ runScript res scriptCmds ∧
      Cmd.gitAddNotebooks ∉ runScript res scriptCmds ∧
      Cmd.gitCommit ∉ runScript res scriptCmds ∧
      Cmd.gitPush ∉ runScript res scriptCmds ∧
      Cmd.sendMail ∉ runScript res scriptCmds := by
  intro res hres
  have key : ∀ d : Cmd, d ∉ cmdsThroughRun → d ∉ runScript res scriptCmds := by
    intro d hd hmem
    have hsplit : scriptCmds = cmdsThroughRun ++ cmdsAfterRun := rfl
    rw [hsplit] at hmem
    obtain ⟨hall, _⟩ := mem_runScript_split res cmdsThroughRun cmdsAfterRun d hd hmem
    have hok := hall Cmd.runNotebooks (by decide)
    rw [hres] at hok
    simp [orTrue] at hok
  exact ⟨key _ (by decide), key _ (by decide), key _ (by decide),
    key _ (by decide), key _ (by decide)⟩

/-- Witness for C8: the outcome assignment under which exactly the
notebook run fails. -/
theorem failed_notebook_run_blocks_publishing_witness :
    resRunFails Cmd.runNotebooks = false ∧
    (Cmd.gitAddSetup ∉ runScript resRunFails scriptCmds ∧
     Cmd.gitAddNotebooks ∉ runScript resRunFails scriptCmds ∧
     Cmd.gitCommit ∉ runScript resRunFails scriptCmds ∧
     Cmd.gitPush ∉ runScript resRunFails scriptCmds ∧
     Cmd.sendMail ∉ runScript resRunFails scriptCmds) :=
  ⟨by decide, failed_notebook_run_blocks_publishing resRunFails (by decide)⟩

/-- C9: when the embedded multi-instrument loop's break condition holds
(every instrument's clip count is below 10), the loop exits without
applying the final iteration's masks: the datasets are returned exactly
as they stood at the start of that iteration.  The second conjunct
exhibits a run in which points flagged as outliers in the final pass
(here 5, in general up to 9 per instrument) therefore remain in the
data consumed downstream. -/
theorem emb_break_skips_final_masks :
    (∀ (fit : List Ds → Nat → List ℚ) (ds : List Ds) (fuel : Nat),
        (embClipped fit ds).all (fun c => decide (c < 10)) = true →
        embLoopAux fit (fuel + 1) ds = (ds, 1)) ∧
    (∃ (fit : List Ds → Nat → List ℚ) (ds : List Ds),
        (embClipped fit ds).all (fun c => decide (c < 10)) = true ∧
        0 < (embClipped fit ds).sum ∧
        embSigmaClip fit ds = (ds, 1)) := by
  constructor
  · intro fit ds fuel hcond
    have hbr : (embStep fit ds).2 = true := by simp [embStep, hcond]
    exact embLoopAux_break fit fuel ds hbr
  · refine ⟨zeroPredFit, [spikeDs], ?_, ?_, ?_⟩
    · with_unfolding_all rfl
    · exact of_decide_eq_true (by with_unfolding_all rfl)
    · with_unfolding_all rfl

/-- Witness for C9: the spike dataset, whose 5 flagged points trigger
the break (5 < 10) and survive untouched. -/
theorem emb_break_skips_final_masks_witness :
    (embClipped zeroPredFit [spikeDs]).all (fun c => decide (c < 10)) = true ∧
    embLoopAux zeroPredFit (9 + 1) [spikeDs] = ([spikeDs], 1) := by
  have h : (embClipped zeroPredFit [spikeDs]).all (fun c => decide (c < 10)) = true := by
    with_unfolding_all rfl
  exact ⟨h, emb_break_skips_final_masks.1 zeroPredFit [spikeDs] 9 h⟩

/-- C10: in `run_notebooks.sh`, if `git commit` exits nonzero (for
example because the notebook run changed no tracked file) then, under
`set -e`, the force-push of the documentation branch and the completion
email never execute — even though the notebook run itself succeeded. -/
theorem failed_commit_blocks_push_and_mail :
    ∀ res : Cmd → Bool, res Cmd.runNotebooks = true →
      res Cmd.gitCommit = false →
      Cmd.gitPush ∉ runScript res scriptCmds ∧
      Cmd.sendMail ∉ runScript res scriptCmds := by
  intro res _hrun hcommit
  have key : ∀ d : Cmd, d ∉ cmdsThroughCommit → d ∉ runScript res scriptCmds := by
    intro d hd hmem
    have hsplit : scriptCmds = cmdsThroughCommit ++ cmdsAfterCommit := rfl
    rw [hsplit] at hmem
    obtain ⟨hall, _⟩ :=
      mem_runScript_split res cmdsThroughCommit cmdsAfterCommit d hd hmem
    have hok := hall Cmd.gitCommit (by decide)
    rw [hcommit] at hok
    simp [orTrue] at hok
  exact ⟨key _ (by decide), key _ (by decide)⟩

/-- Witness for C10: the outcome assignment under which exactly the
commit fails. -/
theorem failed_commit_blocks_push_and_mail_witness :
    resCommitFails Cmd.runNotebooks = true ∧
    resCommitFails Cmd.gitCommit = false ∧
    (Cmd.gitPush ∉ runScript resCommitFails scriptCmds ∧
     Cmd.sendMail ∉ runScript resCommitFails scriptCmds) :=
  ⟨by decide, by decide,
   failed_commit_blocks_push_and_mail resCommitFails (by decide) (by decide)⟩
